import Mathlib

/-!
# The `um_u64_u64_*` binding over `std::unordered_map<uint64_t, uint64_t>`

Source: `src/std_unordered_map.cpp`.  The file is a flat C-linkage surface over a
`Wrapper` that owns one `std::unordered_map<std::uint64_t, std::uint64_t>`.

The embedding has two layers.

* `UnorderedMap` models the standard container through the members the binding calls:
  `find`, `end`, `operator[]`, assignment through the returned reference, `erase(key)`,
  `erase(iterator)`, `size`, `empty`, and the dereference `it->second`.  The container is
  a sequence of entries with pairwise different keys; an iterator is a position in that
  sequence, or the past-the-end iterator.
* the nine `um_u64_u64_*` functions are transcribed line by line on top of it, the
  `Wrapper*` argument becoming an explicit state that is passed in and returned.

Dereferencing or erasing the past-the-end iterator has no behaviour defined by the
language; a call that does so evaluates to `Outcome.undefined`.

`um_u64_u64_free` is described by the storage it leaves allocated: the blocks a map owns
are listed by `ownedStorage`.
-/

namespace StdUnorderedMap

/-- The type `std::uint64_t`. -/
abbrev U64 := Fin 18446744073709551616

/-- An entry `std::pair<const uint64_t, uint64_t>`. -/
abbrev Entry := U64 × U64

/-- What a call evaluates to: it returns `a`, or it has dereferenced (or erased) the
past-the-end iterator, for which no behaviour is defined. -/
inductive Outcome (α : Type) where
  | value (a : α) : Outcome α
  | undefined : Outcome α
  deriving DecidableEq, Repr

/-! ## Entry sequences -/

/-- Position of the entry whose key is `k`, scanning from the front. -/
def findPos (k : U64) : List Entry → Option Nat
  | [] => none
  | e :: t => if e.1 = k then some 0 else (findPos k t).map (· + 1)

/-- Write `v` into the mapped value of the entry at position `i`. -/
def setSecond : Nat → U64 → List Entry → List Entry
  | _, _, [] => []
  | 0, v, e :: t => (e.1, v) :: t
  | i + 1, v, e :: t => e :: setSecond i v t

/-- The mapped value stored under `k`, if an entry with key `k` exists. -/
def lookup (k : U64) : List Entry → Option U64
  | [] => none
  | e :: t => if e.1 = k then some e.2 else lookup k t

/-- The keys of an entry sequence, in sequence order. -/
def keysOf (l : List Entry) : List U64 := l.map Prod.fst

theorem findPos_eq_none {k : U64} {l : List Entry} :
    findPos k l = none ↔ k ∉ keysOf l := by
  induction l with
  | nil => simp [findPos, keysOf]
  | cons e t ih =>
    unfold keysOf at ih
    by_cases h : e.1 = k
    · simp [findPos, keysOf, h]
    · have h' : ¬ k = e.1 := fun c => h c.symm
      simp [findPos, keysOf, h, h', ih]

theorem findPos_lt {k : U64} {l : List Entry} {i : Nat} (h : findPos k l = some i) :
    i < l.length := by
  induction l generalizing i with
  | nil => simp [findPos] at h
  | cons e t ih =>
    by_cases hk : e.1 = k
    · simp [findPos, hk] at h
      subst h
      simp
    · simp only [findPos, hk, if_false, Option.map_eq_some'] at h
      obtain ⟨j, hj, rfl⟩ := h
      have := ih hj
      simp
      omega

theorem keysOf_setSecond (i : Nat) (v : U64) (l : List Entry) :
    keysOf (setSecond i v l) = keysOf l := by
  induction l generalizing i with
  | nil => simp [setSecond]
  | cons e t ih =>
    cases i with
    | zero => simp [setSecond, keysOf]
    | succ j =>
      have := ih j
      simp only [keysOf] at this
      simp [setSecond, keysOf, this]

theorem length_setSecond (i : Nat) (v : U64) (l : List Entry) :
    (setSecond i v l).length = l.length := by
  have := congrArg List.length (keysOf_setSecond i v l)
  simpa [keysOf] using this

theorem keysOf_eraseIdx_nodup (i : Nat) (l : List Entry) (h : (keysOf l).Nodup) :
    (keysOf (l.eraseIdx i)).Nodup := by
  unfold keysOf at *
  exact List.Nodup.sublist (List.Sublist.map _ (List.eraseIdx_sublist l i)) h

/-! ## The container -/

/-- The container `std::unordered_map<uint64_t, uint64_t>`: its entries, no two of which
have the same key. -/
structure UnorderedMap where
  entries : List Entry
  unique : (keysOf entries).Nodup

/-- An iterator into the container: `some i` points at the entry at position `i`,
`none` is the past-the-end iterator. -/
abbrev Iterator := Option Nat

namespace UnorderedMap

/-- The default-constructed container. -/
def empty_map : UnorderedMap := ⟨[], List.nodup_nil⟩

/-- Member `end()`. -/
def endIter (_m : UnorderedMap) : Iterator := none

/-- Member `find(key)`: an iterator to the entry with that key, `end()` if there is none. -/
def find (m : UnorderedMap) (key : U64) : Iterator := findPos key m.entries

/-- Member `size()`. -/
def size (m : UnorderedMap) : Nat := m.entries.length

/-- Member `empty()`. -/
def empty (m : UnorderedMap) : Bool := m.entries.isEmpty

/-- The expression `it->second`. -/
def second (m : UnorderedMap) (it : Iterator) : Outcome U64 :=
  match it with
  | none => Outcome.undefined
  | some i =>
    match m.entries[i]? with
    | some e => Outcome.value e.2
    | none => Outcome.undefined

/-- Member `erase(const_iterator)`. -/
def eraseIter (m : UnorderedMap) (it : Iterator) : Outcome UnorderedMap :=
  match it with
  | none => Outcome.undefined
  | some i =>
    if i < m.entries.length then
      Outcome.value ⟨m.entries.eraseIdx i, keysOf_eraseIdx_nodup i m.entries m.unique⟩
    else Outcome.undefined

/-- Member `erase(const key_type&)`: removes the entry with that key when there is one. -/
def erase (m : UnorderedMap) (key : U64) : UnorderedMap :=
  match findPos key m.entries with
  | none => m
  | some i => ⟨m.entries.eraseIdx i, keysOf_eraseIdx_nodup i m.entries m.unique⟩

/-- Member `operator[](key)`: when no entry has that key, an entry with a
value-initialised (zero) mapped value is added first.  The result is the container and
the position of the entry the returned reference points into. -/
def subscript (m : UnorderedMap) (key : U64) : UnorderedMap × Nat :=
  match h : findPos key m.entries with
  | some i => (m, i)
  | none =>
    (⟨(key, 0) :: m.entries, by
        have hk : key ∉ keysOf m.entries := findPos_eq_none.mp h
        have hu := m.unique
        unfold keysOf at *
        simp only [List.map_cons, List.nodup_cons]
        exact ⟨hk, hu⟩⟩, 0)

/-- Assignment through a reference to the mapped value at position `pos`. -/
def assign (m : UnorderedMap) (pos : Nat) (value : U64) : UnorderedMap :=
  ⟨setSecond pos value m.entries, by rw [keysOf_setSecond]; exact m.unique⟩

end UnorderedMap

/-! ## The binding -/

/-- The binding's `struct Wrapper`. -/
structure Wrapper where
  map : UnorderedMap

/-- Function `um_u64_u64_create`: `return new Wrapper;`. -/
def um_u64_u64_create : Wrapper := ⟨UnorderedMap.empty_map⟩

/-- Function `um_u64_u64_is_empty`: `return w->map.empty();`. -/
def um_u64_u64_is_empty (w : Wrapper) : Bool := w.map.empty

/-- Function `um_u64_u64_insert`: `w->map[key] = value;`. -/
def um_u64_u64_insert (w : Wrapper) (key value : U64) : Wrapper :=
  let r := w.map.subscript key
  ⟨r.1.assign r.2 value⟩

/-- Function `um_u64_u64_contains`: `return w->map.find(key) != w->map.end();`. -/
def um_u64_u64_contains (w : Wrapper) (key : U64) : Bool :=
  w.map.find key != w.map.endIter

/-- Function `um_u64_u64_get`: `return w->map.find(key)->second;`. -/
def um_u64_u64_get (w : Wrapper) (key : U64) : Outcome U64 :=
  w.map.second (w.map.find key)

/-- Function `um_u64_u64_remove`: `w->map.erase(key);`. -/
def um_u64_u64_remove (w : Wrapper) (key : U64) : Wrapper :=
  ⟨w.map.erase key⟩

/-- Function `um_u64_u64_remove_return`: find the entry, read `it->second`, erase through
the iterator, return the value read.  The result pairs the state left behind with the
returned value. -/
def um_u64_u64_remove_return (w : Wrapper) (key : U64) : Outcome (Wrapper × U64) :=
  let it := w.map.find key
  match w.map.second it with
  | Outcome.undefined => Outcome.undefined
  | Outcome.value v =>
    match w.map.eraseIter it with
    | Outcome.undefined => Outcome.undefined
    | Outcome.value m => Outcome.value (⟨m⟩, v)

/-- Function `um_u64_u64_len`: `return w->map.size();`.  `size_type` and `uint64_t` are
both 64 bits wide, so the conversion is the identity; the container never holds more than
`max_size()` entries, which is below `2 ^ 64`, so the count is returned as it is. -/
def um_u64_u64_len (w : Wrapper) : Nat := w.map.size

/-! ## Storage -/

/-- A block of dynamically allocated storage that belongs to a map. -/
inductive Block where
  | wrapper : Block
  | node (key : U64) : Block
  deriving DecidableEq, Repr

/-- The dynamically allocated storage a map owns: the `Wrapper` object, which
`new Wrapper` allocated, and one node for each entry, which the container allocated when
the entry was added.  The bucket array is not listed: whether it is a block of its own
depends on the library and on the size of the map. -/
def ownedStorage (w : Wrapper) : List Block :=
  Block.wrapper :: (keysOf w.map.entries).map Block.node

/-- Function `um_u64_u64_free`: `free(w);`.  The C library's `free` hands back the one
block its argument points to and runs no destructor, so neither the destructor of
`Wrapper` nor that of the container runs.  The result is the storage of the map that is
still allocated after the call. -/
def um_u64_u64_free (w : Wrapper) : List Block :=
  (ownedStorage w).erase Block.wrapper

/-! ## Call sequences -/

/-- Apply a sequence of `insert(k, v)` calls to `w`, first call first. -/
def insertAll (w : Wrapper) : List (U64 × U64) → Wrapper
  | [] => w
  | c :: rest => insertAll (um_u64_u64_insert w c.1 c.2) rest

/-- The value passed in the last call of the sequence whose key is `k`. -/
def lastInserted (k : U64) (calls : List (U64 × U64)) : Option U64 :=
  ((calls.filter (fun c => c.1 = k)).getLast?).map Prod.snd

/-- One mutating call of the binding. -/
inductive Call where
  | insert (key value : U64) : Call
  | remove (key : U64) : Call
  | remove_return (key : U64) : Call
  deriving DecidableEq, Repr

namespace Call

/-- The state a call leaves behind (the value `remove_return` hands back is dropped). -/
def apply (w : Wrapper) : Call → Outcome Wrapper
  | insert k v => Outcome.value (um_u64_u64_insert w k v)
  | remove k => Outcome.value (um_u64_u64_remove w k)
  | remove_return k =>
    match um_u64_u64_remove_return w k with
    | Outcome.value r => Outcome.value r.1
    | Outcome.undefined => Outcome.undefined

/-- The call meets its precondition in state `w`: a `remove_return` names a present key. -/
def allowed (w : Wrapper) : Call → Bool
  | remove_return k => um_u64_u64_contains w k
  | _ => true

/-- The call is a removal (`remove` or `remove_return`) whose key is present in `w`. -/
def removesPresent (w : Wrapper) : Call → Bool
  | insert _ _ => false
  | remove k => um_u64_u64_contains w k
  | remove_return k => um_u64_u64_contains w k

/-- The call is an insert whose key is absent from `w`. -/
def insertsAbsent (w : Wrapper) : Call → Bool
  | insert k _ => !um_u64_u64_contains w k
  | _ => false

/-- The key an insert call passes; nothing for a removal. -/
def insertedKey : Call → Option U64
  | insert k _ => some k
  | _ => none

end Call

/-- Run a sequence of calls from state `w`, first call first. -/
def runCalls (w : Wrapper) : List Call → Outcome Wrapper
  | [] => Outcome.value w
  | c :: rest =>
    match c.apply w with
    | Outcome.value w2 => runCalls w2 rest
    | Outcome.undefined => Outcome.undefined

/-- Every call of the sequence meets its precondition in the state it is made in. -/
def guarded (w : Wrapper) : List Call → Bool
  | [] => true
  | c :: rest =>
    c.allowed w &&
      match c.apply w with
      | Outcome.value w2 => guarded w2 rest
      | Outcome.undefined => false

/-- Number of removal calls of the sequence that removed a present key. -/
def removalsOfPresent (w : Wrapper) : List Call → Nat
  | [] => 0
  | c :: rest =>
    (if c.removesPresent w then 1 else 0) +
      match c.apply w with
      | Outcome.value w2 => removalsOfPresent w2 rest
      | Outcome.undefined => 0

/-- Number of insert calls of the sequence whose key was absent when the call was made. -/
def insertsOfAbsent (w : Wrapper) : List Call → Nat
  | [] => 0
  | c :: rest =>
    (if c.insertsAbsent w then 1 else 0) +
      match c.apply w with
      | Outcome.value w2 => insertsOfAbsent w2 rest
      | Outcome.undefined => 0

/-- Number of distinct keys ever inserted by the sequence. -/
def distinctInserted (calls : List Call) : Nat :=
  ((calls.filterMap Call.insertedKey).dedup).length

/-! ## The read-only calls, with the object they leave behind

The four query functions receive the same non-const `Wrapper*` as the mutating ones.
Here their bodies are transcribed once more with the container object threaded through
every member call they make, the way `um_u64_u64_insert` threads it through `operator[]`
and the assignment: each member call takes the container and hands back the container
after the call together with its result. -/

namespace UnorderedMap

/-- A call of member `empty()`: the container after the call, and the result. -/
def call_empty (m : UnorderedMap) : UnorderedMap × Bool := (m, m.empty)

/-- A call of member `size()`: the container after the call, and the result. -/
def call_size (m : UnorderedMap) : UnorderedMap × Nat := (m, m.size)

/-- A call of member `find(key)`: the container after the call, and the iterator. -/
def call_find (m : UnorderedMap) (key : U64) : UnorderedMap × Iterator := (m, m.find key)

/-- A call of member `end()`: the container after the call, and the iterator. -/
def call_end (m : UnorderedMap) : UnorderedMap × Iterator := (m, m.endIter)

/-- Evaluation of `it->second` as a read: the container after the read, and the value. -/
def read_second (m : UnorderedMap) (it : Iterator) : Outcome (UnorderedMap × U64) :=
  match m.second it with
  | Outcome.value v => Outcome.value (m, v)
  | Outcome.undefined => Outcome.undefined

end UnorderedMap

/-- Function `um_u64_u64_is_empty` with the object it leaves behind:
`return w->map.empty();`. -/
def um_u64_u64_is_empty_effect (w : Wrapper) : Wrapper × Bool :=
  let r := w.map.call_empty
  (⟨r.1⟩, r.2)

/-- Function `um_u64_u64_contains` with the object it leaves behind:
`return w->map.find(key) != w->map.end();`. -/
def um_u64_u64_contains_effect (w : Wrapper) (key : U64) : Wrapper × Bool :=
  let f := w.map.call_find key
  let e := f.1.call_end
  (⟨e.1⟩, f.2 != e.2)

/-- Function `um_u64_u64_get` with the object it leaves behind:
`return w->map.find(key)->second;`. -/
def um_u64_u64_get_effect (w : Wrapper) (key : U64) : Outcome (Wrapper × U64) :=
  let f := w.map.call_find key
  match f.1.read_second f.2 with
  | Outcome.value r => Outcome.value (⟨r.1⟩, r.2)
  | Outcome.undefined => Outcome.undefined

/-- Function `um_u64_u64_len` with the object it leaves behind: `return w->map.size();`. -/
def um_u64_u64_len_effect (w : Wrapper) : Wrapper × Nat :=
  let r := w.map.call_size
  (⟨r.1⟩, r.2)

/-- A read-only call of the binding. -/
inductive Query where
  | is_empty : Query
  | contains (key : U64) : Query
  | get (key : U64) : Query
  | len : Query
  deriving DecidableEq, Repr

/-- What a read-only call returns: a `bool`, a stored value, or an entry count. -/
inductive Answer where
  | flag (b : Bool) : Answer
  | word (v : U64) : Answer
  | count (n : Nat) : Answer
  deriving DecidableEq, Repr

namespace Query

/-- The query meets its precondition in state `w`: a `get` names a present key. -/
def allowed (w : Wrapper) : Query → Bool
  | get k => um_u64_u64_contains w k
  | _ => true

/-- Run a query: the state its body leaves behind, paired with what it returns. -/
def run (w : Wrapper) : Query → Outcome (Wrapper × Answer)
  | is_empty =>
    let r := um_u64_u64_is_empty_effect w
    Outcome.value (r.1, Answer.flag r.2)
  | contains k =>
    let r := um_u64_u64_contains_effect w k
    Outcome.value (r.1, Answer.flag r.2)
  | get k =>
    match um_u64_u64_get_effect w k with
    | Outcome.value r => Outcome.value (r.1, Answer.word r.2)
    | Outcome.undefined => Outcome.undefined
  | len =>
    let r := um_u64_u64_len_effect w
    Outcome.value (r.1, Answer.count r.2)

/-- What the query returns in state `w`, read off the binding's function itself. -/
def answer (w : Wrapper) : Query → Outcome Answer
  | is_empty => Outcome.value (Answer.flag (um_u64_u64_is_empty w))
  | contains k => Outcome.value (Answer.flag (um_u64_u64_contains w k))
  | get k =>
    match um_u64_u64_get w k with
    | Outcome.value v => Outcome.value (Answer.word v)
    | Outcome.undefined => Outcome.undefined
  | len => Outcome.value (Answer.count (um_u64_u64_len w))

end Query

/-! ## Entry sequences: what a scan finds -/

theorem lookup_eq_none {k : U64} {l : List Entry} :
    lookup k l = none ↔ k ∉ keysOf l := by
  induction l with
  | nil => simp [lookup, keysOf]
  | cons e t ih =>
    unfold keysOf at ih
    by_cases h : e.1 = k
    · simp [lookup, keysOf, h]
    · have h' : ¬ k = e.1 := fun c => h c.symm
      simp [lookup, keysOf, h, h', ih]

theorem findPos_some_get {k : U64} {l : List Entry} {i : Nat} (h : findPos k l = some i) :
    ∃ v, l[i]? = some (k, v) ∧ lookup k l = some v := by
  induction l generalizing i with
  | nil => simp [findPos] at h
  | cons e t ih =>
    by_cases hk : e.1 = k
    · simp [findPos, hk] at h
      subst h
      refine ⟨e.2, ?_, ?_⟩
      · simp [← hk]
      · simp [lookup, hk]
    · simp only [findPos, hk, if_false, Option.map_eq_some'] at h
      obtain ⟨j, hj, rfl⟩ := h
      obtain ⟨v, hv, hl⟩ := ih hj
      exact ⟨v, by simpa using hv, by simp [lookup, hk, hl]⟩

theorem findPos_isSome (k : U64) (l : List Entry) :
    (findPos k l).isSome = (lookup k l).isSome := by
  cases hf : findPos k l with
  | none =>
    have := lookup_eq_none.mpr (findPos_eq_none.mp hf)
    simp [this]
  | some i =>
    obtain ⟨v, _, hl⟩ := findPos_some_get hf
    simp [hl]

theorem lookup_setSecond {k : U64} {l : List Entry} {i : Nat} (h : findPos k l = some i)
    (v k2 : U64) :
    lookup k2 (setSecond i v l) = if k2 = k then some v else lookup k2 l := by
  induction l generalizing i with
  | nil => simp [findPos] at h
  | cons e t ih =>
    by_cases hk : e.1 = k
    · simp [findPos, hk] at h
      subst h
      by_cases h2 : k2 = k
      · simp [setSecond, lookup, hk, h2]
      · have h3 : ¬ k = k2 := fun c => h2 c.symm
        simp [setSecond, lookup, hk, h2, h3]
    · simp only [findPos, hk, if_false, Option.map_eq_some'] at h
      obtain ⟨j, hj, rfl⟩ := h
      have := ih hj
      by_cases h2 : k2 = k
      · subst h2
        simp only [setSecond, lookup, hk, if_false, this, if_true]
      · by_cases h5 : e.1 = k2
        · simp [setSecond, lookup, h5, h2]
        · simp only [setSecond, lookup, h5, if_false, this, h2]

theorem lookup_eraseIdx {k : U64} {l : List Entry} {i : Nat} (hu : (keysOf l).Nodup)
    (h : findPos k l = some i) (k2 : U64) :
    lookup k2 (l.eraseIdx i) = if k2 = k then none else lookup k2 l := by
  induction l generalizing i with
  | nil => simp [findPos] at h
  | cons e t ih =>
    have hu2 : e.1 ∉ keysOf t ∧ (keysOf t).Nodup := by
      simpa [keysOf] using hu
    by_cases hk : e.1 = k
    · simp [findPos, hk] at h
      subst h
      by_cases h2 : k2 = k
      · have : lookup k t = none := lookup_eq_none.mpr (hk ▸ hu2.1)
        simp [h2, this]
      · have h3 : ¬ k = k2 := fun c => h2 c.symm
        simp [lookup, hk, h2, h3]
    · simp only [findPos, hk, if_false, Option.map_eq_some'] at h
      obtain ⟨j, hj, rfl⟩ := h
      have := ih hu2.2 hj
      by_cases h2 : k2 = k
      · subst h2
        simp only [List.eraseIdx_cons_succ, lookup, hk, if_false, this, if_true]
      · by_cases h5 : e.1 = k2
        · simp [lookup, h5, h2]
        · simp only [List.eraseIdx_cons_succ, lookup, h5, if_false, this, h2]

theorem length_eraseIdx_succ {l : List Entry} {i : Nat} (h : i < l.length) :
    (l.eraseIdx i).length + 1 = l.length := by
  induction l generalizing i with
  | nil => simp at h
  | cons e t ih =>
    cases i with
    | zero => simp
    | succ j =>
      have := ih (i := j) (by simpa using h)
      simp [this]

/-! ## The binding's functions in terms of `lookup` -/

theorem contains_eq_lookup (w : Wrapper) (k : U64) :
    um_u64_u64_contains w k = (lookup k w.map.entries).isSome := by
  unfold um_u64_u64_contains UnorderedMap.find UnorderedMap.endIter
  rw [← findPos_isSome]
  cases findPos k w.map.entries <;> rfl

theorem get_eq_lookup (w : Wrapper) (k : U64) :
    um_u64_u64_get w k =
      match lookup k w.map.entries with
      | some v => Outcome.value v
      | none => Outcome.undefined := by
  unfold um_u64_u64_get UnorderedMap.find UnorderedMap.second
  cases hf : findPos k w.map.entries with
  | none =>
    have := lookup_eq_none.mpr (findPos_eq_none.mp hf)
    simp [this]
  | some i =>
    obtain ⟨v, hg, hl⟩ := findPos_some_get hf
    simp [hg, hl]

theorem insert_entries (w : Wrapper) (k v : U64) :
    (um_u64_u64_insert w k v).map.entries =
      match findPos k w.map.entries with
      | some i => setSecond i v w.map.entries
      | none => (k, v) :: w.map.entries := by
  unfold um_u64_u64_insert UnorderedMap.subscript UnorderedMap.assign
  split <;> rename_i h <;> simp [h, setSecond]

theorem lookup_insert (w : Wrapper) (k v k2 : U64) :
    lookup k2 (um_u64_u64_insert w k v).map.entries =
      if k2 = k then some v else lookup k2 w.map.entries := by
  rw [insert_entries]
  cases hf : findPos k w.map.entries with
  | none =>
    by_cases h : k2 = k
    · simp [lookup, h]
    · have h3 : ¬ k = k2 := fun c => h c.symm
      simp [lookup, h, h3]
  | some i => exact lookup_setSecond hf v k2

theorem len_insert (w : Wrapper) (k v : U64) :
    um_u64_u64_len (um_u64_u64_insert w k v) =
      if um_u64_u64_contains w k then um_u64_u64_len w else um_u64_u64_len w + 1 := by
  unfold um_u64_u64_len UnorderedMap.size
  rw [insert_entries, contains_eq_lookup, ← findPos_isSome]
  cases hf : findPos k w.map.entries with
  | none => simp
  | some i => simp [length_setSecond]

theorem remove_entries (w : Wrapper) (k : U64) :
    (um_u64_u64_remove w k).map.entries =
      match findPos k w.map.entries with
      | some i => w.map.entries.eraseIdx i
      | none => w.map.entries := by
  unfold um_u64_u64_remove UnorderedMap.erase
  split <;> rename_i h <;> simp [h]

theorem lookup_remove (w : Wrapper) (k k2 : U64) :
    lookup k2 (um_u64_u64_remove w k).map.entries =
      if k2 = k then none else lookup k2 w.map.entries := by
  rw [remove_entries]
  cases hf : findPos k w.map.entries with
  | none =>
    by_cases h : k2 = k
    · subst h
      simpa using lookup_eq_none.mpr (findPos_eq_none.mp hf)
    · simp [h]
  | some i => exact lookup_eraseIdx w.map.unique hf k2

theorem len_remove (w : Wrapper) (k : U64) :
    um_u64_u64_len (um_u64_u64_remove w k) + (if um_u64_u64_contains w k then 1 else 0) =
      um_u64_u64_len w := by
  unfold um_u64_u64_len UnorderedMap.size
  rw [remove_entries, contains_eq_lookup, ← findPos_isSome]
  cases hf : findPos k w.map.entries with
  | none => simp
  | some i => simpa using length_eraseIdx_succ (findPos_lt hf)

theorem remove_absent (w : Wrapper) (k : U64) (h : um_u64_u64_contains w k = false) :
    um_u64_u64_remove w k = w := by
  rw [contains_eq_lookup, ← findPos_isSome] at h
  unfold um_u64_u64_remove UnorderedMap.erase
  cases hf : findPos k w.map.entries with
  | none => rfl
  | some i => simp [hf] at h

theorem remove_return_present (w : Wrapper) (k v : U64)
    (h : lookup k w.map.entries = some v) :
    um_u64_u64_remove_return w k = Outcome.value (um_u64_u64_remove w k, v) := by
  unfold um_u64_u64_remove_return um_u64_u64_remove UnorderedMap.erase UnorderedMap.find
    UnorderedMap.second UnorderedMap.eraseIter
  cases hf : findPos k w.map.entries with
  | none =>
    have := lookup_eq_none.mpr (findPos_eq_none.mp hf)
    simp [this] at h
  | some i =>
    obtain ⟨v2, hg, hl⟩ := findPos_some_get hf
    have hv : v2 = v := by simpa [hl] using h
    subst hv
    rw [List.getElem?_eq_getElem (findPos_lt hf)] at hg
    simp only [Option.some.injEq] at hg
    simp [hg, findPos_lt hf]

theorem remove_return_absent (w : Wrapper) (k : U64)
    (h : lookup k w.map.entries = none) :
    um_u64_u64_remove_return w k = Outcome.undefined := by
  unfold um_u64_u64_remove_return UnorderedMap.find UnorderedMap.second
  have hf : findPos k w.map.entries = none := findPos_eq_none.mpr (lookup_eq_none.mp h)
  simp [hf]

theorem is_empty_eq_decide (w : Wrapper) :
    um_u64_u64_is_empty w = decide (um_u64_u64_len w = 0) := by
  unfold um_u64_u64_is_empty um_u64_u64_len UnorderedMap.empty UnorderedMap.size
  cases w.map.entries <;> simp

theorem lastInserted_cons (k : U64) (c : U64 × U64) (rest : List (U64 × U64)) :
    lastInserted k (c :: rest) =
      match lastInserted k rest with
      | some v => some v
      | none => if c.1 = k then some c.2 else none := by
  unfold lastInserted
  by_cases h : c.1 = k
  · rw [List.filter_cons_of_pos (by simpa using h), List.getLast?_cons]
    generalize (List.filter (fun c => decide (c.1 = k)) rest).getLast? = o
    cases o <;> simp [h]
  · rw [List.filter_cons_of_neg (by simpa using h)]
    generalize (List.filter (fun c => decide (c.1 = k)) rest).getLast? = o
    cases o <;> simp [h]

theorem lookup_insertAll (w : Wrapper) (calls : List (U64 × U64)) (k : U64) :
    lookup k (insertAll w calls).map.entries =
      match lastInserted k calls with
      | some v => some v
      | none => lookup k w.map.entries := by
  induction calls generalizing w with
  | nil => simp [insertAll, lastInserted]
  | cons c rest ih =>
    rw [insertAll, ih, lastInserted_cons, lookup_insert]
    cases lastInserted k rest with
    | some v => rfl
    | none =>
      by_cases h : c.1 = k
      · simp [h]
      · have h2 : ¬ k = c.1 := fun e => h e.symm
        simp [h, h2]

theorem lastInserted_isSome (k : U64) (calls : List (U64 × U64))
    (hk : k ∈ calls.map Prod.fst) : ∃ v, lastInserted k calls = some v := by
  induction calls with
  | nil => simp at hk
  | cons c rest ih =>
    rw [lastInserted_cons]
    cases hr : lastInserted k rest with
    | some v => exact ⟨v, rfl⟩
    | none =>
      by_cases h : c.1 = k
      · exact ⟨c.2, by simp [h]⟩
      · have hk2 : k ∈ rest.map Prod.fst := by
          simp only [List.map_cons, List.mem_cons] at hk
          rcases hk with hk | hk
          · exact absurd hk.symm h
          · exact hk
        obtain ⟨v, hv⟩ := ih hk2
        rw [hr] at hv
        cases hv

theorem contains_iff_mem_keys (w : Wrapper) (k : U64) :
    um_u64_u64_contains w k = true ↔ k ∈ keysOf w.map.entries := by
  rw [contains_eq_lookup]
  cases hl : lookup k w.map.entries with
  | none => simpa using lookup_eq_none.mp hl
  | some v =>
    have : ¬ lookup k w.map.entries = none := by simp [hl]
    simpa using fun c => this (lookup_eq_none.mpr c)

theorem runCalls_len (w : Wrapper) (calls : List Call) (h : guarded w calls = true) :
    ∃ w2, runCalls w calls = Outcome.value w2 ∧
      um_u64_u64_len w2 + removalsOfPresent w calls
        = um_u64_u64_len w + insertsOfAbsent w calls := by
  induction calls generalizing w with
  | nil => exact ⟨w, rfl, rfl⟩
  | cons c rest ih =>
    cases c with
    | insert k v =>
      have hg : guarded (um_u64_u64_insert w k v) rest = true := by
        simpa [guarded, Call.allowed, Call.apply] using h
      obtain ⟨w2, hr, hl⟩ := ih _ hg
      refine ⟨w2, by simpa [runCalls, Call.apply] using hr, ?_⟩
      have hi := len_insert w k v
      simp only [removalsOfPresent, insertsOfAbsent, Call.removesPresent, Call.insertsAbsent,
        Call.apply]
      by_cases hc : um_u64_u64_contains w k = true
      · simp only [hc, if_true] at hi
        simp only [hc]
        simp
        omega
      · have hc2 : um_u64_u64_contains w k = false := by simpa using hc
        simp [hc2] at hi
        simp only [hc2]
        simp
        omega
    | remove k =>
      have hg : guarded (um_u64_u64_remove w k) rest = true := by
        simpa [guarded, Call.allowed, Call.apply] using h
      obtain ⟨w2, hr, hl⟩ := ih _ hg
      refine ⟨w2, by simpa [runCalls, Call.apply] using hr, ?_⟩
      have hi := len_remove w k
      simp only [removalsOfPresent, insertsOfAbsent, Call.removesPresent, Call.insertsAbsent,
        Call.apply]
      by_cases hc : um_u64_u64_contains w k = true
      · simp only [hc, if_true] at hi
        simp only [hc]
        simp
        omega
      · have hc2 : um_u64_u64_contains w k = false := by simpa using hc
        simp [hc2] at hi
        simp only [hc2]
        simp
        omega
    | remove_return k =>
      have hc : um_u64_u64_contains w k = true := by
        simp only [guarded, Call.allowed, Bool.and_eq_true] at h
        exact h.1
      have hsome : ∃ v, lookup k w.map.entries = some v := by
        rw [contains_eq_lookup] at hc
        exact Option.isSome_iff_exists.mp hc
      obtain ⟨v, hv⟩ := hsome
      have hrr := remove_return_present w k v hv
      have hg : guarded (um_u64_u64_remove w k) rest = true := by
        simpa [guarded, Call.allowed, Call.apply, hrr, hc] using h
      obtain ⟨w2, hr, hl⟩ := ih _ hg
      refine ⟨w2, by simpa [runCalls, Call.apply, hrr] using hr, ?_⟩
      have hi := len_remove w k
      simp only [removalsOfPresent, insertsOfAbsent, Call.removesPresent, Call.insertsAbsent,
        Call.apply, hrr]
      simp [hc] at hi ⊢
      omega

theorem get_undefined_iff_absent (w : Wrapper) (k : U64) :
    um_u64_u64_get w k = Outcome.undefined ↔ um_u64_u64_contains w k = false := by
  rw [get_eq_lookup, contains_eq_lookup]
  cases lookup k w.map.entries <;> simp

theorem remove_return_undefined_iff_absent (w : Wrapper) (k : U64) :
    um_u64_u64_remove_return w k = Outcome.undefined ↔ um_u64_u64_contains w k = false := by
  rw [contains_eq_lookup]
  cases hl : lookup k w.map.entries with
  | none => simp [remove_return_absent w k hl]
  | some v => simp [remove_return_present w k v hl]

theorem mem_entries_iff_lookup {l : List Entry} (hu : (keysOf l).Nodup) (k v : U64) :
    (k, v) ∈ l ↔ lookup k l = some v := by
  induction l with
  | nil => simp [lookup]
  | cons e t ih =>
    have hu2 : e.1 ∉ keysOf t ∧ (keysOf t).Nodup := by
      simpa [keysOf] using hu
    by_cases hk : e.1 = k
    · have hnot : ∀ x, (k, x) ∉ t := by
        intro x hx
        apply hu2.1
        rw [hk]
        exact List.mem_map.mpr ⟨(k, x), hx, rfl⟩
      simp only [List.mem_cons, lookup, hk, if_true, hnot, or_false, Option.some.injEq]
      constructor
      · intro he
        rw [← he]
      · intro he
        rw [← he, ← hk]
    · have hne : ¬ (k, v) = e := by
        intro he
        apply hk
        rw [← he]
      simp only [List.mem_cons, lookup, hk, if_false, hne, false_or]
      exact ih hu2.2

theorem contains_insert_other (w : Wrapper) (k v k2 : U64) (h : k2 ≠ k) :
    um_u64_u64_contains (um_u64_u64_insert w k v) k2 = um_u64_u64_contains w k2 := by
  rw [contains_eq_lookup, contains_eq_lookup, lookup_insert]
  simp [h]

theorem contains_insert_same (w : Wrapper) (k v : U64) :
    um_u64_u64_contains (um_u64_u64_insert w k v) k = true := by
  rw [contains_eq_lookup, lookup_insert]
  simp

theorem lastInserted_none (k : U64) (calls : List (U64 × U64))
    (h : k ∉ calls.map Prod.fst) : lastInserted k calls = none := by
  induction calls with
  | nil => rfl
  | cons c rest ih =>
    simp only [List.map_cons, List.mem_cons, not_or] at h
    have hc : ¬ c.1 = k := fun e => h.1 e.symm
    rw [lastInserted_cons, ih h.2]
    simp [hc]

theorem lastInserted_of_nodup (calls : List (U64 × U64)) (h : (calls.map Prod.fst).Nodup)
    (c : U64 × U64) (hc : c ∈ calls) : lastInserted c.1 calls = some c.2 := by
  induction calls with
  | nil => simp at hc
  | cons c0 rest ih =>
    simp only [List.map_cons, List.nodup_cons] at h
    rw [lastInserted_cons]
    rcases List.mem_cons.mp hc with he | hr
    · subst he
      rw [lastInserted_none c.1 rest h.1]
      simp
    · rw [ih h.2 hr]

theorem len_insertAll (w : Wrapper) (calls : List (U64 × U64))
    (h : (calls.map Prod.fst).Nodup)
    (habs : ∀ k ∈ calls.map Prod.fst, um_u64_u64_contains w k = false) :
    um_u64_u64_len (insertAll w calls) = um_u64_u64_len w + calls.length := by
  induction calls generalizing w with
  | nil => rfl
  | cons c rest ih =>
    simp only [List.map_cons, List.nodup_cons] at h
    have hc : um_u64_u64_contains w c.1 = false := habs c.1 (by simp)
    have hrest : ∀ k ∈ rest.map Prod.fst,
        um_u64_u64_contains (um_u64_u64_insert w c.1 c.2) k = false := by
      intro k hk
      have hne : k ≠ c.1 := fun e => h.1 (e ▸ hk)
      rw [contains_insert_other w c.1 c.2 k hne]
      exact habs k (by simp [hk])
    rw [insertAll, ih _ h.2 hrest, len_insert, hc]
    simp
    omega

theorem subscript_adds_absent_key (w : Wrapper) (k : U64)
    (h : um_u64_u64_contains w k = false) :
    (w.map.subscript k).1.size = w.map.size + 1 := by
  rw [contains_eq_lookup, ← findPos_isSome] at h
  unfold UnorderedMap.subscript UnorderedMap.size
  split
  · rename_i i hi
    simp [hi] at h
  · simp

theorem free_leaves_nodes (w : Wrapper) :
    um_u64_u64_free w = (keysOf w.map.entries).map Block.node := by
  simp [um_u64_u64_free, ownedStorage]

theorem get_effect_eq (w : Wrapper) (k : U64) :
    um_u64_u64_get_effect w k =
      match um_u64_u64_get w k with
      | Outcome.value v => Outcome.value (w, v)
      | Outcome.undefined => Outcome.undefined := by
  unfold um_u64_u64_get_effect um_u64_u64_get UnorderedMap.call_find UnorderedMap.read_second
  simp only []
  generalize w.map.second (w.map.find k) = o
  cases o <;> rfl

theorem subscript_changes_container (w : Wrapper) (k : U64)
    (h : um_u64_u64_contains w k = false) : (w.map.subscript k).1 ≠ w.map := by
  intro e
  have hs : (w.map.subscript k).1.size = w.map.size + 1 := by
    rw [contains_eq_lookup, ← findPos_isSome] at h
    unfold UnorderedMap.subscript UnorderedMap.size
    split
    · rename_i i hi
      simp [hi] at h
    · simp
  rw [e] at hs
  omega

theorem insert_changes_state (w : Wrapper) (k v : U64)
    (h : um_u64_u64_contains w k = false) : um_u64_u64_insert w k v ≠ w := by
  intro e
  have hl := len_insert w k v
  rw [e, h] at hl
  simp at hl

/-! ## The claims -/

/-- C1: after any finite sequence of `insert(k, v)` calls on a freshly created map, every
key `k` that occurs in the sequence is contained, and `get(k)` returns the value passed in
the last insert for `k`. -/
theorem insert_sequence_last_value (calls : List (U64 × U64)) (k : U64)
    (hk : k ∈ calls.map Prod.fst) :
    um_u64_u64_contains (insertAll um_u64_u64_create calls) k = true ∧
    ∃ v, lastInserted k calls = some v ∧
      um_u64_u64_get (insertAll um_u64_u64_create calls) k = Outcome.value v := by
  obtain ⟨v, hv⟩ := lastInserted_isSome k calls hk
  have hl := lookup_insertAll um_u64_u64_create calls k
  rw [hv] at hl
  refine ⟨?_, v, hv, ?_⟩
  · rw [contains_eq_lookup, hl]; rfl
  · rw [get_eq_lookup, hl]

/-- Witness for C1 on the calls `insert(1, 100)`, `insert(2, 7)`, `insert(1, 200)` and the
key `1`. -/
theorem insert_sequence_last_value_witness :
    (1 : U64) ∈ [((1 : U64), (100 : U64)), (2, 7), (1, 200)].map Prod.fst ∧
    um_u64_u64_contains (insertAll um_u64_u64_create [(1, 100), (2, 7), (1, 200)]) 1 = true ∧
    ∃ v, lastInserted 1 [(1, 100), (2, 7), (1, 200)] = some v ∧
      um_u64_u64_get (insertAll um_u64_u64_create [(1, 100), (2, 7), (1, 200)]) 1
        = Outcome.value v :=
  ⟨by decide, insert_sequence_last_value [(1, 100), (2, 7), (1, 200)] 1 (by decide)⟩

/-- C2: `insert(m, k, v)` leaves `len` unchanged when `k` is already present and
increases it by exactly one when `k` is absent; in both cases `get(k)` returns `v`
afterwards. -/
theorem insert_len_and_get (w : Wrapper) (k v : U64) :
    um_u64_u64_len (um_u64_u64_insert w k v) =
      (if um_u64_u64_contains w k = true then um_u64_u64_len w else um_u64_u64_len w + 1) ∧
    um_u64_u64_get (um_u64_u64_insert w k v) k = Outcome.value v := by
  refine ⟨by simpa using len_insert w k v, ?_⟩
  rw [get_eq_lookup, lookup_insert]
  simp

/-- C3: after `remove(m, k)` the key `k` is not contained; `len` has gone down by exactly
one when `k` was present; when `k` was absent the call changes nothing, so `len` and
`is_empty` are unchanged. -/
theorem remove_contains_and_len (w : Wrapper) (k : U64) :
    um_u64_u64_contains (um_u64_u64_remove w k) k = false ∧
    (if um_u64_u64_contains w k = true then
      um_u64_u64_len (um_u64_u64_remove w k) + 1 = um_u64_u64_len w
    else
      um_u64_u64_remove w k = w ∧
      um_u64_u64_len (um_u64_u64_remove w k) = um_u64_u64_len w ∧
      um_u64_u64_is_empty (um_u64_u64_remove w k) = um_u64_u64_is_empty w) := by
  refine ⟨?_, ?_⟩
  · rw [contains_eq_lookup, lookup_remove]
    simp
  · have hlen := len_remove w k
    cases hc : um_u64_u64_contains w k with
    | true => simpa [hc] using hlen
    | false =>
      rw [remove_absent w k hc]
      simp

/-- C4: for a key `k` present in the map, `remove_return(m, k)` returns the value that
`get(m, k)` returns immediately before the call, and `k` is not contained afterwards. -/
theorem remove_return_value (w : Wrapper) (k : U64)
    (h : um_u64_u64_contains w k = true) :
    ∃ v w2, um_u64_u64_get w k = Outcome.value v ∧
      um_u64_u64_remove_return w k = Outcome.value (w2, v) ∧
      um_u64_u64_contains w2 k = false := by
  rw [contains_eq_lookup] at h
  cases hl : lookup k w.map.entries with
  | none => simp [hl] at h
  | some v =>
    refine ⟨v, um_u64_u64_remove w k, ?_, remove_return_present w k v hl, ?_⟩
    · rw [get_eq_lookup, hl]
    · rw [contains_eq_lookup, lookup_remove]
      simp

/-- Witness for C4 on the map holding the single entry `(5, 50)` and the key `5`. -/
theorem remove_return_value_witness :
    um_u64_u64_contains (um_u64_u64_insert um_u64_u64_create 5 50) 5 = true ∧
    ∃ v w2, um_u64_u64_get (um_u64_u64_insert um_u64_u64_create 5 50) 5 = Outcome.value v ∧
      um_u64_u64_remove_return (um_u64_u64_insert um_u64_u64_create 5 50) 5
        = Outcome.value (w2, v) ∧
      um_u64_u64_contains w2 5 = false :=
  ⟨by decide, remove_return_value (um_u64_u64_insert um_u64_u64_create 5 50) 5 (by decide)⟩

/-- C5: on the freshly created map the key `7` is absent, and both `get` and
`remove_return` dereference the past-the-end iterator that `find` returned: the calls have
no defined result, and nothing in them reports the violated precondition. -/
theorem absent_key_dereferences_end :
    um_u64_u64_contains um_u64_u64_create 7 = false ∧
    um_u64_u64_get um_u64_u64_create 7 = Outcome.undefined ∧
    um_u64_u64_remove_return um_u64_u64_create 7 = Outcome.undefined :=
  ⟨by decide, by decide, rfl⟩

/-- C6, as stated, fails: after `insert(1, 100)`, `remove(1)`, `insert(1, 200)` on a fresh
map `len` is `1`, while one distinct key was inserted and one removal removed a present
key, which gives `1 - 1 = 0`. -/
theorem len_differs_from_distinct_minus_removed :
    guarded um_u64_u64_create [Call.insert 1 100, Call.remove 1, Call.insert 1 200] = true ∧
    ∃ w, runCalls um_u64_u64_create [Call.insert 1 100, Call.remove 1, Call.insert 1 200]
        = Outcome.value w ∧
      um_u64_u64_len w = 1 ∧
      distinctInserted [Call.insert 1 100, Call.remove 1, Call.insert 1 200] = 1 ∧
      removalsOfPresent um_u64_u64_create
        [Call.insert 1 100, Call.remove 1, Call.insert 1 200] = 1 ∧
      um_u64_u64_len w ≠
        distinctInserted [Call.insert 1 100, Call.remove 1, Call.insert 1 200]
          - removalsOfPresent um_u64_u64_create
              [Call.insert 1 100, Call.remove 1, Call.insert 1 200] :=
  ⟨by decide, _, rfl, by decide, by decide, by decide, by decide⟩

/-- C6, amended: for every sequence of `insert`, `remove` and `remove_return` calls on a
freshly created map in which `remove_return` is only called on present keys, the sequence
runs to a final state, and `len` there equals the number of insert calls whose key was
absent when the call was made minus the number of removal calls that removed a present
key. -/
theorem len_counts_inserts_minus_removals (calls : List Call)
    (h : guarded um_u64_u64_create calls = true) :
    ∃ w, runCalls um_u64_u64_create calls = Outcome.value w ∧
      removalsOfPresent um_u64_u64_create calls ≤ insertsOfAbsent um_u64_u64_create calls ∧
      um_u64_u64_len w =
        insertsOfAbsent um_u64_u64_create calls
          - removalsOfPresent um_u64_u64_create calls := by
  obtain ⟨w, hr, hl⟩ := runCalls_len um_u64_u64_create calls h
  have h0 : um_u64_u64_len um_u64_u64_create = 0 := rfl
  refine ⟨w, hr, ?_, ?_⟩ <;> omega

/-- Witness for the amended C6 on `insert(1, 100)`, `remove(1)`, `insert(1, 200)`,
`remove_return(1)`, `insert(2, 5)`. -/
theorem len_counts_inserts_minus_removals_witness :
    guarded um_u64_u64_create
      [Call.insert 1 100, Call.remove 1, Call.insert 1 200, Call.remove_return 1,
        Call.insert 2 5] = true ∧
    ∃ w, runCalls um_u64_u64_create
        [Call.insert 1 100, Call.remove 1, Call.insert 1 200, Call.remove_return 1,
          Call.insert 2 5] = Outcome.value w ∧
      removalsOfPresent um_u64_u64_create
          [Call.insert 1 100, Call.remove 1, Call.insert 1 200, Call.remove_return 1,
            Call.insert 2 5]
        ≤ insertsOfAbsent um_u64_u64_create
          [Call.insert 1 100, Call.remove 1, Call.insert 1 200, Call.remove_return 1,
            Call.insert 2 5] ∧
      um_u64_u64_len w =
        insertsOfAbsent um_u64_u64_create
            [Call.insert 1 100, Call.remove 1, Call.insert 1 200, Call.remove_return 1,
              Call.insert 2 5]
          - removalsOfPresent um_u64_u64_create
              [Call.insert 1 100, Call.remove 1, Call.insert 1 200, Call.remove_return 1,
                Call.insert 2 5] :=
  ⟨by decide, len_counts_inserts_minus_removals _ (by decide)⟩

/-- C7: in every state of the map, hence in every state reachable from `create()` by
`insert`, `remove` and `remove_return`, `len` equals the number of distinct keys `k` for
which `contains(k)` is true. -/
theorem len_eq_number_of_contained_keys (w : Wrapper) :
    Set.ncard {k : U64 | um_u64_u64_contains w k = true} = um_u64_u64_len w := by
  have hset : {k : U64 | um_u64_u64_contains w k = true}
      = ((keysOf w.map.entries).toFinset : Set U64) := by
    ext k
    simp [contains_iff_mem_keys]
  rw [hset, Set.ncard_coe_Finset, List.toFinset_card_of_nodup w.map.unique]
  simp [keysOf, um_u64_u64_len, UnorderedMap.size]

/-- C8: `is_empty(m)` is true if and only if `len(m) = 0`. -/
theorem is_empty_iff_len_zero (w : Wrapper) :
    um_u64_u64_is_empty w = true ↔ um_u64_u64_len w = 0 := by
  rw [is_empty_eq_decide]
  simp

/-- C9: the map returned by `create()` is empty: `is_empty` is true, `len` is `0`, and no
64-bit key is contained. -/
theorem create_is_empty :
    um_u64_u64_is_empty um_u64_u64_create = true ∧
    um_u64_u64_len um_u64_u64_create = 0 ∧
    ∀ k : U64, um_u64_u64_contains um_u64_u64_create k = false := by
  refine ⟨rfl, rfl, ?_⟩
  intro k
  rfl

/-- C10: for a key `k` absent from the map, `insert(m, k, v)` followed by `remove(m, k)`
restores `len` and `is_empty` to their values before the insert, and `contains` and `get`
answer for every key as they did before the insert. -/
theorem insert_then_remove_restores (w : Wrapper) (k v : U64)
    (h : um_u64_u64_contains w k = false) :
    um_u64_u64_len (um_u64_u64_remove (um_u64_u64_insert w k v) k) = um_u64_u64_len w ∧
    um_u64_u64_is_empty (um_u64_u64_remove (um_u64_u64_insert w k v) k)
      = um_u64_u64_is_empty w ∧
    ∀ k2 : U64,
      um_u64_u64_contains (um_u64_u64_remove (um_u64_u64_insert w k v) k) k2
        = um_u64_u64_contains w k2 ∧
      um_u64_u64_get (um_u64_u64_remove (um_u64_u64_insert w k v) k) k2
        = um_u64_u64_get w k2 := by
  have hk : lookup k w.map.entries = none := by
    rw [contains_eq_lookup] at h
    simpa using h
  have hlook : ∀ k2 : U64,
      lookup k2 (um_u64_u64_remove (um_u64_u64_insert w k v) k).map.entries
        = lookup k2 w.map.entries := by
    intro k2
    rw [lookup_remove, lookup_insert]
    by_cases h2 : k2 = k
    · subst h2
      simp [hk]
    · simp [h2]
  have hin : um_u64_u64_contains (um_u64_u64_insert w k v) k = true := by
    rw [contains_eq_lookup, lookup_insert]
    simp
  have hlen : um_u64_u64_len (um_u64_u64_remove (um_u64_u64_insert w k v) k)
      = um_u64_u64_len w := by
    have h1 := len_remove (um_u64_u64_insert w k v) k
    have h2 := len_insert w k v
    rw [hin] at h1
    rw [h] at h2
    simp at h1 h2
    omega
  refine ⟨hlen, ?_, ?_⟩
  · rw [is_empty_eq_decide, is_empty_eq_decide, hlen]
  · intro k2
    constructor
    · rw [contains_eq_lookup, contains_eq_lookup, hlook]
    · rw [get_eq_lookup, get_eq_lookup, hlook]

/-- Witness for C10 on the map holding `(1, 100)`, with the absent key `2`. -/
theorem insert_then_remove_restores_witness :
    um_u64_u64_contains (um_u64_u64_insert um_u64_u64_create 1 100) 2 = false ∧
    (um_u64_u64_len (um_u64_u64_remove
        (um_u64_u64_insert (um_u64_u64_insert um_u64_u64_create 1 100) 2 9) 2)
      = um_u64_u64_len (um_u64_u64_insert um_u64_u64_create 1 100) ∧
    um_u64_u64_is_empty (um_u64_u64_remove
        (um_u64_u64_insert (um_u64_u64_insert um_u64_u64_create 1 100) 2 9) 2)
      = um_u64_u64_is_empty (um_u64_u64_insert um_u64_u64_create 1 100) ∧
    ∀ k2 : U64,
      um_u64_u64_contains (um_u64_u64_remove
          (um_u64_u64_insert (um_u64_u64_insert um_u64_u64_create 1 100) 2 9) 2) k2
        = um_u64_u64_contains (um_u64_u64_insert um_u64_u64_create 1 100) k2 ∧
      um_u64_u64_get (um_u64_u64_remove
          (um_u64_u64_insert (um_u64_u64_insert um_u64_u64_create 1 100) 2 9) 2) k2
        = um_u64_u64_get (um_u64_u64_insert um_u64_u64_create 1 100) k2) :=
  ⟨by decide,
    insert_then_remove_restores (um_u64_u64_insert um_u64_u64_create 1 100) 2 9 (by decide)⟩

/-- C11: for keys `k2` different from `k`, `insert(m, k, v)` leaves `contains(k2)` and
`get(k2)` as they were, and every entry stored under `k2` before the insert is still
stored, with the same value, after it; no key that was contained before the insert is
missing after it. -/
theorem insert_keeps_other_keys (w : Wrapper) (k v k2 : U64) (h : k2 ≠ k) :
    um_u64_u64_contains (um_u64_u64_insert w k v) k2 = um_u64_u64_contains w k2 ∧
    um_u64_u64_get (um_u64_u64_insert w k v) k2 = um_u64_u64_get w k2 ∧
    (∀ v2 : U64, (k2, v2) ∈ w.map.entries →
      (k2, v2) ∈ (um_u64_u64_insert w k v).map.entries) ∧
    ∀ k3 : U64, um_u64_u64_contains w k3 = true →
      um_u64_u64_contains (um_u64_u64_insert w k v) k3 = true := by
  have hl : lookup k2 (um_u64_u64_insert w k v).map.entries = lookup k2 w.map.entries := by
    rw [lookup_insert]
    simp [h]
  refine ⟨contains_insert_other w k v k2 h, ?_, ?_, ?_⟩
  · rw [get_eq_lookup, get_eq_lookup, hl]
  · intro v2 hv
    rw [mem_entries_iff_lookup (um_u64_u64_insert w k v).map.unique, hl]
    exact (mem_entries_iff_lookup w.map.unique k2 v2).mp hv
  · intro k3 h3
    by_cases e : k3 = k
    · rw [e]
      exact contains_insert_same w k v
    · rw [contains_insert_other w k v k3 e]
      exact h3

/-- Witness for C11: inserting `(5, 51)` into the map holding `(5, 50)` and `(9, 90)`
leaves the key `9` as it was. -/
theorem insert_keeps_other_keys_witness :
    (9 : U64) ≠ 5 ∧
    (um_u64_u64_contains
        (um_u64_u64_insert (um_u64_u64_insert (um_u64_u64_insert um_u64_u64_create 5 50) 9 90)
          5 51) 9
      = um_u64_u64_contains
          (um_u64_u64_insert (um_u64_u64_insert um_u64_u64_create 5 50) 9 90) 9 ∧
    um_u64_u64_get
        (um_u64_u64_insert (um_u64_u64_insert (um_u64_u64_insert um_u64_u64_create 5 50) 9 90)
          5 51) 9
      = um_u64_u64_get (um_u64_u64_insert (um_u64_u64_insert um_u64_u64_create 5 50) 9 90) 9 ∧
    (∀ v2 : U64,
      (9, v2) ∈ (um_u64_u64_insert (um_u64_u64_insert um_u64_u64_create 5 50) 9 90).map.entries →
      (9, v2) ∈ (um_u64_u64_insert
        (um_u64_u64_insert (um_u64_u64_insert um_u64_u64_create 5 50) 9 90) 5 51).map.entries) ∧
    ∀ k3 : U64,
      um_u64_u64_contains (um_u64_u64_insert (um_u64_u64_insert um_u64_u64_create 5 50) 9 90) k3
        = true →
      um_u64_u64_contains
          (um_u64_u64_insert (um_u64_u64_insert (um_u64_u64_insert um_u64_u64_create 5 50) 9 90)
            5 51) k3
        = true) :=
  ⟨by decide,
    insert_keeps_other_keys
      (um_u64_u64_insert (um_u64_u64_insert um_u64_u64_create 5 50) 9 90) 5 51 9 (by decide)⟩

/-- C12: for keys `k2` different from `k`, `remove(m, k)` leaves `contains(k2)` and
`get(k2)` as they were, and so does `remove_return(m, k)` when `k` is present, which then
returns a value and a state.  On a fresh map, after `insert(5, 50)` and `insert(9, 90)`,
`remove_return(5)` returns `50`, and afterwards `len` is `1` and `9` is still contained. -/
theorem removal_keeps_other_keys (w : Wrapper) (k k2 : U64) (h : k2 ≠ k) :
    (um_u64_u64_contains (um_u64_u64_remove w k) k2 = um_u64_u64_contains w k2 ∧
      um_u64_u64_get (um_u64_u64_remove w k) k2 = um_u64_u64_get w k2) ∧
    (um_u64_u64_contains w k = true →
      ∃ w2 v, um_u64_u64_remove_return w k = Outcome.value (w2, v) ∧
        um_u64_u64_contains w2 k2 = um_u64_u64_contains w k2 ∧
        um_u64_u64_get w2 k2 = um_u64_u64_get w k2) ∧
    (∃ w3, um_u64_u64_remove_return
          (um_u64_u64_insert (um_u64_u64_insert um_u64_u64_create 5 50) 9 90) 5
        = Outcome.value (w3, 50) ∧
      um_u64_u64_len w3 = 1 ∧ um_u64_u64_contains w3 9 = true) := by
  have hl : lookup k2 (um_u64_u64_remove w k).map.entries = lookup k2 w.map.entries := by
    rw [lookup_remove]
    simp [h]
  have hframe : um_u64_u64_contains (um_u64_u64_remove w k) k2 = um_u64_u64_contains w k2 ∧
      um_u64_u64_get (um_u64_u64_remove w k) k2 = um_u64_u64_get w k2 := by
    constructor
    · rw [contains_eq_lookup, contains_eq_lookup, hl]
    · rw [get_eq_lookup, get_eq_lookup, hl]
  refine ⟨hframe, ?_, ?_⟩
  · intro hc
    rw [contains_eq_lookup] at hc
    obtain ⟨v, hv⟩ := Option.isSome_iff_exists.mp hc
    exact ⟨um_u64_u64_remove w k, v, remove_return_present w k v hv, hframe⟩
  · exact ⟨_, rfl, by decide, by decide⟩

/-- Witness for C12: removing the present key `5` from the map holding `(5, 50)` and
`(9, 90)`, observed at the key `9`. -/
theorem removal_keeps_other_keys_witness :
    (9 : U64) ≠ 5 ∧
    um_u64_u64_contains (um_u64_u64_insert (um_u64_u64_insert um_u64_u64_create 5 50) 9 90) 5
      = true ∧
    ∃ w2 v,
      um_u64_u64_remove_return
          (um_u64_u64_insert (um_u64_u64_insert um_u64_u64_create 5 50) 9 90) 5
        = Outcome.value (w2, v) ∧
      um_u64_u64_contains w2 9
        = um_u64_u64_contains
            (um_u64_u64_insert (um_u64_u64_insert um_u64_u64_create 5 50) 9 90) 9 ∧
      um_u64_u64_get w2 9
        = um_u64_u64_get (um_u64_u64_insert (um_u64_u64_insert um_u64_u64_create 5 50) 9 90) 9 :=
  ⟨by decide, by decide,
    (removal_keeps_other_keys
      (um_u64_u64_insert (um_u64_u64_insert um_u64_u64_create 5 50) 9 90) 5 9
      (by decide)).2.1 (by decide)⟩

/-- C13: inserting a list of `N` pairwise different keys with their values into a freshly
created map, whatever `N` and whatever the order of the list, gives `len = N`, and
`get(k)` returns the value inserted for `k`, for every inserted key `k`. -/
theorem insert_distinct_keys (calls : List (U64 × U64)) (h : (calls.map Prod.fst).Nodup) :
    um_u64_u64_len (insertAll um_u64_u64_create calls) = calls.length ∧
    ∀ c ∈ calls,
      um_u64_u64_get (insertAll um_u64_u64_create calls) c.1 = Outcome.value c.2 := by
  constructor
  · have := len_insertAll um_u64_u64_create calls h (fun k _ => rfl)
    rw [this]
    show 0 + calls.length = calls.length
    omega
  · intro c hc
    rw [get_eq_lookup, lookup_insertAll, lastInserted_of_nodup calls h c hc]

/-- Witness for C13 on the keys `3`, `1`, `2` with the values `30`, `10`, `20`. -/
theorem insert_distinct_keys_witness :
    ([((3 : U64), (30 : U64)), (1, 10), (2, 20)].map Prod.fst).Nodup ∧
    (um_u64_u64_len (insertAll um_u64_u64_create [(3, 30), (1, 10), (2, 20)])
        = [((3 : U64), (30 : U64)), (1, 10), (2, 20)].length ∧
      ∀ c ∈ [((3 : U64), (30 : U64)), (1, 10), (2, 20)],
        um_u64_u64_get (insertAll um_u64_u64_create [(3, 30), (1, 10), (2, 20)]) c.1
          = Outcome.value c.2) :=
  ⟨by decide, insert_distinct_keys [(3, 30), (1, 10), (2, 20)] (by decide)⟩

/-- C14: the queries `is_empty`, `contains`, `len`, and `get` on a present key, return
their answer and leave the map state unchanged: the state threaded through the member
calls of each body comes back as it went in, so every query made afterwards answers as it
would have without the call; in particular `contains` and `get` add no entry. -/
theorem queries_leave_state_unchanged (w : Wrapper) (q : Query)
    (h : q.allowed w = true) :
    ∃ w2 a, q.run w = Outcome.value (w2, a) ∧ q.answer w = Outcome.value a ∧ w2 = w ∧
      um_u64_u64_len w2 = um_u64_u64_len w ∧
      um_u64_u64_is_empty w2 = um_u64_u64_is_empty w ∧
      (∀ k : U64, um_u64_u64_contains w2 k = um_u64_u64_contains w k ∧
        um_u64_u64_get w2 k = um_u64_u64_get w k) ∧
      ∀ q2 : Query, q2.run w2 = q2.run w := by
  cases q with
  | is_empty =>
    exact ⟨w, _, rfl, rfl, rfl, rfl, rfl, fun _ => ⟨rfl, rfl⟩, fun _ => rfl⟩
  | contains k =>
    exact ⟨w, _, rfl, rfl, rfl, rfl, rfl, fun _ => ⟨rfl, rfl⟩, fun _ => rfl⟩
  | len =>
    exact ⟨w, _, rfl, rfl, rfl, rfl, rfl, fun _ => ⟨rfl, rfl⟩, fun _ => rfl⟩
  | get k =>
    have hc : um_u64_u64_contains w k = true := h
    rw [contains_eq_lookup] at hc
    obtain ⟨v, hv⟩ := Option.isSome_iff_exists.mp hc
    have hg : um_u64_u64_get w k = Outcome.value v := by
      rw [get_eq_lookup, hv]
    refine ⟨w, Answer.word v, ?_, ?_, rfl, rfl, rfl, fun _ => ⟨rfl, rfl⟩, fun _ => rfl⟩
    · simp [Query.run, get_effect_eq, hg]
    · simp [Query.answer, hg]

/-- Witness for C14: `get(1)` on the map holding `(1, 100)`. -/
theorem queries_leave_state_unchanged_witness :
    Query.allowed (um_u64_u64_insert um_u64_u64_create 1 100) (Query.get 1) = true ∧
    ∃ w2 a,
      Query.run (um_u64_u64_insert um_u64_u64_create 1 100) (Query.get 1)
        = Outcome.value (w2, a) ∧
      Query.answer (um_u64_u64_insert um_u64_u64_create 1 100) (Query.get 1)
        = Outcome.value a ∧
      w2 = um_u64_u64_insert um_u64_u64_create 1 100 ∧
      um_u64_u64_len w2 = um_u64_u64_len (um_u64_u64_insert um_u64_u64_create 1 100) ∧
      um_u64_u64_is_empty w2
        = um_u64_u64_is_empty (um_u64_u64_insert um_u64_u64_create 1 100) ∧
      (∀ k : U64,
        um_u64_u64_contains w2 k
          = um_u64_u64_contains (um_u64_u64_insert um_u64_u64_create 1 100) k ∧
        um_u64_u64_get w2 k
          = um_u64_u64_get (um_u64_u64_insert um_u64_u64_create 1 100) k) ∧
      ∀ q2 : Query,
        q2.run w2 = q2.run (um_u64_u64_insert um_u64_u64_create 1 100) :=
  ⟨by decide,
    queries_leave_state_unchanged (um_u64_u64_insert um_u64_u64_create 1 100) (Query.get 1)
      (by decide)⟩

/-- C15: the map holding the single entry `(1, 100)` owns the `Wrapper` object and the
node of that entry; after `free` the node is still allocated, so the call has not released
all storage the map owns. -/
theorem free_leaves_entry_node_allocated :
    ownedStorage (um_u64_u64_insert um_u64_u64_create 1 100)
      = [Block.wrapper, Block.node 1] ∧
    um_u64_u64_free (um_u64_u64_insert um_u64_u64_create 1 100) = [Block.node 1] := by
  decide

/-- C16: for a key `k` present in the map, `remove_return(m, k)` leaves exactly the state
that `remove(m, k)` leaves; it differs only in handing back the stored value, the one
`get(m, k)` reads. -/
theorem remove_return_state_is_remove (w : Wrapper) (k : U64)
    (h : um_u64_u64_contains w k = true) :
    ∃ v, um_u64_u64_get w k = Outcome.value v ∧
      um_u64_u64_remove_return w k = Outcome.value (um_u64_u64_remove w k, v) := by
  rw [contains_eq_lookup] at h
  obtain ⟨v, hv⟩ := Option.isSome_iff_exists.mp h
  refine ⟨v, ?_, remove_return_present w k v hv⟩
  rw [get_eq_lookup, hv]

/-- Witness for C16 on the map holding `(5, 50)` and `(9, 90)` and the key `9`. -/
theorem remove_return_state_is_remove_witness :
    um_u64_u64_contains (um_u64_u64_insert (um_u64_u64_insert um_u64_u64_create 5 50) 9 90) 9
      = true ∧
    ∃ v,
      um_u64_u64_get (um_u64_u64_insert (um_u64_u64_insert um_u64_u64_create 5 50) 9 90) 9
        = Outcome.value v ∧
      um_u64_u64_remove_return
          (um_u64_u64_insert (um_u64_u64_insert um_u64_u64_create 5 50) 9 90) 9
        = Outcome.value
          (um_u64_u64_remove
            (um_u64_u64_insert (um_u64_u64_insert um_u64_u64_create 5 50) 9 90) 9, v) :=
  ⟨by decide,
    remove_return_state_is_remove
      (um_u64_u64_insert (um_u64_u64_insert um_u64_u64_create 5 50) 9 90) 9 (by decide)⟩

/-- C17: inserts on different keys commute up to observation: for `k1` different from
`k2`, the map after `insert(k1, v1)` then `insert(k2, v2)` and the map after
`insert(k2, v2)` then `insert(k1, v1)` have the same `len` and give the same `contains`
and `get` for every key. -/
theorem inserts_on_different_keys_commute (w : Wrapper) (k1 k2 v1 v2 : U64) (h : k1 ≠ k2) :
    um_u64_u64_len (um_u64_u64_insert (um_u64_u64_insert w k1 v1) k2 v2)
      = um_u64_u64_len (um_u64_u64_insert (um_u64_u64_insert w k2 v2) k1 v1) ∧
    ∀ k : U64,
      um_u64_u64_contains (um_u64_u64_insert (um_u64_u64_insert w k1 v1) k2 v2) k
        = um_u64_u64_contains (um_u64_u64_insert (um_u64_u64_insert w k2 v2) k1 v1) k ∧
      um_u64_u64_get (um_u64_u64_insert (um_u64_u64_insert w k1 v1) k2 v2) k
        = um_u64_u64_get (um_u64_u64_insert (um_u64_u64_insert w k2 v2) k1 v1) k := by
  have h21 : k2 ≠ k1 := fun c => h c.symm
  have hl : ∀ k : U64,
      lookup k (um_u64_u64_insert (um_u64_u64_insert w k1 v1) k2 v2).map.entries
        = lookup k (um_u64_u64_insert (um_u64_u64_insert w k2 v2) k1 v1).map.entries := by
    intro k
    rw [lookup_insert, lookup_insert, lookup_insert, lookup_insert]
    by_cases c1 : k = k1
    · subst c1
      simp [h]
    · simp [c1]
  refine ⟨?_, ?_⟩
  · rw [len_insert, len_insert, len_insert, len_insert,
      contains_insert_other w k1 v1 k2 h21, contains_insert_other w k2 v2 k1 h]
    by_cases c1 : um_u64_u64_contains w k1 = true <;>
      by_cases c2 : um_u64_u64_contains w k2 = true <;> simp [c1, c2]
  · intro k
    constructor
    · rw [contains_eq_lookup, contains_eq_lookup, hl]
    · rw [get_eq_lookup, get_eq_lookup, hl]

/-- Witness for C17 on the map holding `(1, 100)`, with the keys `1` (present) and `2`
(absent). -/
theorem inserts_on_different_keys_commute_witness :
    (1 : U64) ≠ 2 ∧
    (um_u64_u64_len
        (um_u64_u64_insert (um_u64_u64_insert (um_u64_u64_insert um_u64_u64_create 1 100) 1 7)
          2 8)
      = um_u64_u64_len
        (um_u64_u64_insert (um_u64_u64_insert (um_u64_u64_insert um_u64_u64_create 1 100) 2 8)
          1 7) ∧
    ∀ k : U64,
      um_u64_u64_contains
          (um_u64_u64_insert (um_u64_u64_insert (um_u64_u64_insert um_u64_u64_create 1 100) 1 7)
            2 8) k
        = um_u64_u64_contains
          (um_u64_u64_insert (um_u64_u64_insert (um_u64_u64_insert um_u64_u64_create 1 100) 2 8)
            1 7) k ∧
      um_u64_u64_get
          (um_u64_u64_insert (um_u64_u64_insert (um_u64_u64_insert um_u64_u64_create 1 100) 1 7)
            2 8) k
        = um_u64_u64_get
          (um_u64_u64_insert (um_u64_u64_insert (um_u64_u64_insert um_u64_u64_create 1 100) 2 8)
            1 7) k) :=
  ⟨by decide,
    inserts_on_different_keys_commute (um_u64_u64_insert um_u64_u64_create 1 100) 1 2 7 8
      (by decide)⟩

end StdUnorderedMap
